import Mathlib

/-!
Verification development for the `http_py` repository: a shallow embedding of
the cache backends (`http_py/cache/`) and the rate-limiter quota engine
(`http_py/rate_limiter/`), together with theorems settling the frozen claims
about TTL semantics, capacity sweeps, the quota decision procedure, window-key
arithmetic, the Redis prefix-scoped clear loop, and the Redis JSON round-trip.

Machine integers of the source are modelled as `Int`/`Nat` (Python integers
are unbounded, so no wrap-around modelling is needed). Python functions that
can raise are embedded as functions into `Except PyError _` or into pairs
`Except PyError Unit × State` when the caller observes the unchanged state
after an exception. Wall-clock reads (`int(time.time())`, `datetime.now()`)
become explicit `now`/instant parameters.
-/

/-- Errors raised by the embedded Python code: `ValueError`, `TypeError`
(e.g. a `NamedTuple` constructor called with an undeclared keyword argument),
and the rate limiter's `RateLimitException`. -/
inductive PyError where
  | valueError (msg : String)
  | typeError (msg : String)
  | rateLimitExc (msg : String)
  deriving DecidableEq

/-! ## Python `dict` model

Python's `dict[str, A]` is embedded as an insertion-ordered association list.
`dictGet` is `d.get(k)`, `dictSet` is `d[k] = v` (replace in place if the key
is present, append otherwise), `dictPop` is `d.pop(k, None)`. -/

/-- `d.get(key)`: the value at the first matching key, if any. -/
def dictGet {A : Type} : List (String × A) → String → Option A
  | [], _ => none
  | (k, v) :: rest, key => if k = key then some v else dictGet rest key

/-- `key in d`. -/
def dictContains {A : Type} (d : List (String × A)) (key : String) : Bool :=
  (dictGet d key).isSome

/-- `d[key] = v`: replace the entry in place if present, append otherwise
(Python dicts preserve insertion order). -/
def dictSet {A : Type} : List (String × A) → String → A → List (String × A)
  | [], key, v => [(key, v)]
  | (k, w) :: rest, key, v =>
      if k = key then (k, v) :: rest else (k, w) :: dictSet rest key v

/-- `d.pop(key, None)`: drop the entry for `key`. -/
def dictPop {A : Type} : List (String × A) → String → List (String × A)
  | [], _ => []
  | (k, v) :: rest, key =>
      if k = key then dictPop rest key else (k, v) :: dictPop rest key

theorem dictGet_dictSet_self {A : Type} (d : List (String × A)) (key : String) (v : A) :
    dictGet (dictSet d key v) key = some v := by
  induction d with
  | nil => simp [dictGet, dictSet]
  | cons hd tl ih =>
      obtain ⟨k, w⟩ := hd
      by_cases h : k = key <;> simp [dictGet, dictSet, h, ih]

theorem dictGet_dictSet_ne {A : Type} (d : List (String × A)) (key k' : String) (v : A)
    (h : k' ≠ key) : dictGet (dictSet d key v) k' = dictGet d k' := by
  induction d with
  | nil =>
      have hne : ¬(key = k') := fun hk => h hk.symm
      simp [dictGet, dictSet, hne]
  | cons hd tl ih =>
      obtain ⟨k, w⟩ := hd
      by_cases hk : k = key
      · subst hk
        have hne : ¬(k = k') := fun hk => h hk.symm
        simp [dictGet, dictSet, hne]
      · simp only [dictSet, if_neg hk]
        by_cases hk' : k = k' <;> simp [dictGet, hk', ih]

theorem dictGet_dictPop_self {A : Type} (d : List (String × A)) (key : String) :
    dictGet (dictPop d key) key = none := by
  induction d with
  | nil => simp [dictGet, dictPop]
  | cons hd tl ih =>
      obtain ⟨k, w⟩ := hd
      by_cases h : k = key <;> simp [dictGet, dictPop, h, ih]

theorem dictGet_eq_none_of_not_mem {A : Type} (d : List (String × A)) (key : String)
    (h : key ∉ d.map Prod.fst) : dictGet d key = none := by
  induction d with
  | nil => rfl
  | cons hd tl ih =>
      obtain ⟨k, w⟩ := hd
      simp only [List.map_cons, List.mem_cons] at h
      push_neg at h
      have hne : ¬(k = key) := fun hk => h.1 hk.symm
      simp [dictGet, hne, ih h.2]

theorem dictGet_filter {A : Type} (P : String × A → Bool) (d : List (String × A))
    (key : String) (hnd : (d.map Prod.fst).Nodup) :
    dictGet (d.filter P) key =
      (dictGet d key).bind (fun v => if P (key, v) then some v else none) := by
  induction d with
  | nil => simp [dictGet]
  | cons hd tl ih =>
      obtain ⟨k, w⟩ := hd
      simp only [List.map_cons, List.nodup_cons] at hnd
      by_cases h : k = key
      · subst h
        by_cases hp : P (k, w)
        · simp [List.filter, hp, dictGet]
        · have : dictGet (tl.filter P) k = none := by
            apply dictGet_eq_none_of_not_mem
            intro hmem
            apply hnd.1
            simp only [List.mem_map, List.mem_filter] at hmem
            obtain ⟨e, ⟨he, _⟩, hfst⟩ := hmem
            exact List.mem_map.mpr ⟨e, he, hfst⟩
          simp [List.filter, hp, dictGet, this]
      · by_cases hp : P (k, w) <;>
          simp [List.filter, hp, dictGet, h, ih hnd.2]

/-! ## In-process cache (`http_py/cache/models.py`, `utils.py`, `in_memory_cache.py`) -/

/-- `CacheItem` (`http_py/cache/models.py`): a cached value with its absolute
expiry timestamp in unix seconds. The source annotates `value: Any` and
`expires_at: int`; the validity check in `http_py/cache/utils.py` nevertheless
guards against either being `None`, so both are embedded as `Option`. -/
structure CacheItem (V : Type) where
  value : Option V
  expires_at : Option Int
  deriving DecidableEq

/-- `is_cache_item_valid` (`http_py/cache/utils.py`): an item is valid iff its
value and expiry are non-`None` and `int(time.time()) < expires_at`. The
wall-clock read becomes the explicit `now` parameter. -/
def is_cache_item_valid {V : Type} (now : Int) (cacheItem : CacheItem V) : Bool :=
  match cacheItem.expires_at, cacheItem.value with
  | none, _ => false
  | _, none => false
  | some expiresAt, some _ => decide (now < expiresAt)

/-- `DEFAULT_EXPIRATION_IN_SECONDS = 300` (`http_py/cache/in_memory_cache.py`). -/
def DEFAULT_EXPIRATION_IN_SECONDS : Int := 300

/-- `InMemoryCache` (`http_py/cache/in_memory_cache.py`): a map-backed cache
with `max_size` (default 1000) and the `_cache` dict. -/
structure InMemoryCache (V : Type) where
  max_size : Nat := 1000
  cache : List (String × CacheItem V) := []

/-- `InMemoryCache._clean`: remove all expired items from the cache
(the source collects keys whose item fails `is_cache_item_valid` and pops
each, which keeps exactly the valid entries in order). -/
def InMemoryCache._clean {V : Type} (now : Int) (c : InMemoryCache V) : InMemoryCache V :=
  { c with cache := c.cache.filter (fun kv => is_cache_item_valid now kv.2) }

/-- `InMemoryCache.set`: raise `ValueError` on a `None` value (state
untouched); otherwise, if the key is new and the map is at or above
`max_size`, run `_clean` first; then store
`CacheItem(value, now + expiration_in_seconds)` under the key. -/
def InMemoryCache.set {V : Type} (c : InMemoryCache V) (key : String) (value : Option V)
    (expiration_in_seconds : Int) (now : Int) :
    Except PyError Unit × InMemoryCache V :=
  match value with
  | none => (.error (.valueError "InMemoryCache: value cannot be None"), c)
  | some v =>
      let c1 :=
        if ¬ dictContains c.cache key ∧ c.max_size ≤ c.cache.length then
          InMemoryCache._clean now c
        else c
      (.ok (), { c1 with
        cache := dictSet c1.cache key ⟨some v, some (now + expiration_in_seconds)⟩ })

/-- `InMemoryCache.get`: return the value when present and valid; when present
but expired, pop the entry and return `None`; when absent, return `None`. -/
def InMemoryCache.get {V : Type} (c : InMemoryCache V) (key : String) (now : Int) :
    Option V × InMemoryCache V :=
  match dictGet c.cache key with
  | none => (none, c)
  | some cacheItem =>
      if is_cache_item_valid now cacheItem then (cacheItem.value, c)
      else (none, { c with cache := dictPop c.cache key })

/-- `InMemoryCache.remove_item`: `self._cache.pop(key, None)`. -/
def InMemoryCache.remove_item {V : Type} (c : InMemoryCache V) (key : String) :
    InMemoryCache V :=
  { c with cache := dictPop c.cache key }

/-- `InMemoryCache.exists`: true iff the key holds a valid entry; pops the
entry when present but expired, like `get`. -/
def InMemoryCache.exists {V : Type} (c : InMemoryCache V) (key : String) (now : Int) :
    Bool × InMemoryCache V :=
  match dictGet c.cache key with
  | none => (false, c)
  | some cacheItem =>
      if is_cache_item_valid now cacheItem then (true, c)
      else (false, { c with cache := dictPop c.cache key })

/-- `InMemoryCache.items_count`. -/
def InMemoryCache.items_count {V : Type} (c : InMemoryCache V) : Nat :=
  c.cache.length

/-- `InMemoryCache.clear`. -/
def InMemoryCache.clear {V : Type} (c : InMemoryCache V) : InMemoryCache V :=
  { c with cache := [] }

/-! ## Rate limiter (`http_py/rate_limiter/types.py`, `utils.py`)

`http_py/rate_limiter/types.py` declares `RateLimiterRule` and
`RateLimiterRequestCount` as `NamedTuple`s with fields
`path, daily_limit, monthly_limit, hourly_limit` and
`path, daily_count, monthly_count, hourly_count` respectively — neither
declares a `product_name` field. The construction sites in
`http_py/rate_limiter/utils.py` (`fetch_rate_limiter_rule`,
`fetch_rate_limiter_count`) pass `product_name=` as a keyword argument; a
`NamedTuple` constructor accepts exactly its declared fields, so the call is
embedded as a field-list check that raises `TypeError` on mismatch. -/

/-- `RateLimiterRule` (`types.py` lines 6–10): exactly the declared fields. -/
structure RateLimiterRule where
  path : String
  daily_limit : Int
  monthly_limit : Int
  hourly_limit : Int
  deriving DecidableEq

/-- `RateLimiterRequestCount` (`types.py` lines 13–17). -/
structure RateLimiterRequestCount where
  path : String
  daily_count : Int
  monthly_count : Int
  hourly_count : Int
  deriving DecidableEq

/-- The field names `RateLimiterRule` declares (`types.py` lines 6–10). -/
def rateLimiterRuleFields : List String :=
  ["path", "daily_limit", "monthly_limit", "hourly_limit"]

/-- The field names `RateLimiterRequestCount` declares (`types.py` 13–17). -/
def rateLimiterRequestCountFields : List String :=
  ["path", "daily_count", "monthly_count", "hourly_count"]

/-- The keyword arguments `fetch_rate_limiter_rule` passes to
`RateLimiterRule(...)` (`utils.py` lines 96–102). -/
def fetchRuleCtorKwargs : List String :=
  ["path", "product_name", "daily_limit", "monthly_limit", "hourly_limit"]

/-- The keyword arguments `fetch_rate_limiter_count` passes to
`RateLimiterRequestCount(...)` (`utils.py` lines 128–134). -/
def fetchCountCtorKwargs : List String :=
  ["path", "product_name", "monthly_count", "daily_count", "hourly_count"]

/-- A Python `NamedTuple` constructor call succeeds iff every keyword argument
is a declared field and every declared field (all required here, no defaults)
is supplied. -/
def namedTupleCallOk (fields kwargs : List String) : Bool :=
  kwargs.all (fun k => fields.contains k) && fields.all (fun f => kwargs.contains f)

/-- The reason carried by a `RateLimitException` raised in `assert_capacity`
(`utils.py` lines 32–53): which check tripped. -/
inductive RateLimitReason where
  | ruleNotFound
  | monthly
  | daily
  | hourly
  deriving DecidableEq

/-- Outcome of the quota decision. -/
inductive Decision where
  | allow
  | reject (reason : RateLimitReason)
  deriving DecidableEq

/-- The decision procedure of `assert_capacity` (`utils.py` lines 32–53),
taking the two task results: no rule → `RateLimitException` (rule not found);
no count record → return (allow); otherwise check `monthly_count >=
monthly_limit`, then `daily_count >= daily_limit`, then `hourly_count >=
hourly_limit`, raising at the first that holds; otherwise allow. -/
def assert_capacity_decide (rule : Option RateLimiterRule)
    (count : Option RateLimiterRequestCount) : Decision :=
  match rule with
  | none => .reject .ruleNotFound
  | some rule =>
      match count with
      | none => .allow
      | some count =>
          if rule.monthly_limit ≤ count.monthly_count then .reject .monthly
          else if rule.daily_limit ≤ count.daily_count then .reject .daily
          else if rule.hourly_limit ≤ count.hourly_count then .reject .hourly
          else .allow

/-- A UTC wall-clock instant as `datetime.now(tz=UTC)` exposes it: calendar
date parts plus the position inside the hour. -/
structure Instant where
  year : Nat
  month : Nat
  day : Nat
  hour : Nat
  minute : Nat
  second : Nat
  deriving DecidableEq

/-- `datetime` ordering: lexicographic on (year, month, day, hour, minute,
second). -/
def Instant.ltB (a b : Instant) : Bool :=
  decide (a.year < b.year) ||
    (decide (a.year = b.year) &&
      (decide (a.month < b.month) ||
        (decide (a.month = b.month) &&
          (decide (a.day < b.day) ||
            (decide (a.day = b.day) &&
              (decide (a.hour < b.hour) ||
                (decide (a.hour = b.hour) &&
                  (decide (a.minute < b.minute) ||
                    (decide (a.minute = b.minute) &&
                      decide (a.second < b.second))))))))))

/-- Two instants fall on the same calendar day. -/
def Instant.sameDay (a b : Instant) : Bool :=
  decide (a.year = b.year) && decide (a.month = b.month) && decide (a.day = b.day)

/-- `month_key = (year * 100) + month` (`fetch_rate_limiter_monthly_count`,
`utils.py` line 145). -/
def month_key (year month : Nat) : Nat := (year * 100) + month

/-- `day_key = (((year * 100) + month) * 100) + day`
(`fetch_rate_limiter_daily_count`, `utils.py` line 192). -/
def day_key (year month day : Nat) : Nat := (((year * 100) + month) * 100) + day

/-- `hour_key = ((((year * 100) + month) * 100 + day) * 100) + hour`
(`fetch_rate_limiter_hourly_count`, `utils.py` line 239). -/
def hour_key (year month day hour : Nat) : Nat :=
  ((((year * 100) + month) * 100 + day) * 100) + hour

/-- The hour key of an instant. -/
def Instant.hourKey (t : Instant) : Nat := hour_key t.year t.month t.day t.hour

/-- The request fields the quota engine reads from `ExtractedRequestData`
(`http_py/request.py`): `path` and `product_name`. The remaining fields
(headers, body, product module/feature/tenant) do not affect the quota
engine and are omitted. `path` is annotated `str` in the source but checked
against `None` by the fetch functions, so both are embedded as `Option`. -/
structure ExtractedRequestData where
  path : Option String
  product_name : Option String

/-- Values the module-level `CACHE` holds: rule objects under `"rule:..."`
keys and count objects under `"count:..."` keys. -/
inductive RlCacheVal where
  | rule (r : RateLimiterRule)
  | count (c : RateLimiterRequestCount)
  deriving DecidableEq

/-- The data-access collaborator (`ctx.reader`) as the quota engine queries
it: the `rate_limiter_rule` row for a (path, product_name) pair, and the
`COUNT(*)` of `rate_limiter_request` rows for a (window key, path,
product_name) triple per window column. A fetched rule row carries the five
selected columns. The `PoolTimeout` handlers in the source log and re-raise
unchanged, which is the identity on outcomes, so the collaborator is embedded
as total functions. -/
structure RateLimiterDb where
  rule : String → String → Option (String × String × Int × Int × Int)
  monthlyCount : String → String → Nat → Int
  dailyCount : String → String → Nat → Int
  hourlyCount : String → String → Nat → Int

/-- `RULE_CACHING_EXPIRATION_IN_SECONDS = 300` (`utils.py` line 19). -/
def RULE_CACHING_EXPIRATION_IN_SECONDS : Int := 300

/-- `fetch_rate_limiter_rule` (`utils.py` lines 56–104): validate args, try
the cache under `"rule:{path}:{product_name}"`, on miss query the rule row;
absent row → `None`; present row → construct `RateLimiterRule` (passing the
keyword arguments of `utils.py` lines 96–102, which raises `TypeError`
because `product_name` is not a declared field) and cache it for
`RULE_CACHING_EXPIRATION_IN_SECONDS`. A cache hit is `cast` to a rule, a
static no-op; a non-rule value under a rule key is unreachable because only
rules are ever stored under `"rule:"` keys, and is embedded as `TypeError`. -/
def fetch_rate_limiter_rule (db : RateLimiterDb) (cache : InMemoryCache RlCacheVal)
    (args : ExtractedRequestData) (now : Int) :
    Except PyError (Option RateLimiterRule × InMemoryCache RlCacheVal) :=
  match args.path, args.product_name with
  | none, _ => .error (.valueError "fetch_rate_limiter_rule: 'path' is required")
  | some _, none =>
      .error (.valueError "fetch_rate_limiter_rule: 'product_name' is required")
  | some path, some product_name =>
      let cache_key := "rule:" ++ path ++ ":" ++ product_name
      match cache.get cache_key now with
      | (some (.rule r), c1) => .ok (some r, c1)
      | (some (.count _), _) => .error (.typeError "cast to RateLimiterRule")
      | (none, c1) =>
          match db.rule path product_name with
          | none => .ok (none, c1)
          | some (rowPath, _rowProduct, rowDaily, rowMonthly, rowHourly) =>
              if namedTupleCallOk rateLimiterRuleFields fetchRuleCtorKwargs then
                let rule : RateLimiterRule :=
                  ⟨rowPath, rowDaily, rowMonthly, rowHourly⟩
                .ok (some rule,
                  (c1.set cache_key (some (.rule rule))
                    RULE_CACHING_EXPIRATION_IN_SECONDS now).2)
              else
                .error (.typeError
                  "RateLimiterRule() got an unexpected keyword argument: product_name")

/-- `fetch_rate_limiter_count` (`utils.py` lines 107–136): validate args, try
the cache under `"count:{path}:{product_name}"`, on miss gather the three
window counts (each keyed by its window key derived from `datetime.now`,
`utils.py` lines 139–276), construct `RateLimiterRequestCount` (the keyword
arguments of lines 128–134 include `product_name`, raising `TypeError`) and
cache it. The three sub-queries run under `asyncio.gather`; they are
read-only and independent, so their join is embedded by direct evaluation. -/
def fetch_rate_limiter_count (db : RateLimiterDb) (cache : InMemoryCache RlCacheVal)
    (args : ExtractedRequestData) (t : Instant) (now : Int) :
    Except PyError (Option RateLimiterRequestCount × InMemoryCache RlCacheVal) :=
  match args.path, args.product_name with
  | none, _ => .error (.valueError "fetch_rate_limiter_count: 'path' is required")
  | some _, none =>
      .error (.valueError "fetch_rate_limiter_count: 'product_name' is required")
  | some path, some product_name =>
      let cache_key := "count:" ++ path ++ ":" ++ product_name
      match cache.get cache_key now with
      | (some (.count c), c1) => .ok (some c, c1)
      | (some (.rule _), _) => .error (.typeError "cast to RateLimiterRequestCount")
      | (none, c1) =>
          let monthly := db.monthlyCount path product_name (month_key t.year t.month)
          let daily := db.dailyCount path product_name (day_key t.year t.month t.day)
          let hourly :=
            db.hourlyCount path product_name (hour_key t.year t.month t.day t.hour)
          if namedTupleCallOk rateLimiterRequestCountFields fetchCountCtorKwargs then
            let count : RateLimiterRequestCount := ⟨path, daily, monthly, hourly⟩
            .ok (some count,
              (c1.set cache_key (some (.count count))
                RULE_CACHING_EXPIRATION_IN_SECONDS now).2)
          else
            .error (.typeError
              "RateLimiterRequestCount() got an unexpected keyword argument: product_name")

/-- `assert_capacity` (`utils.py` lines 24–53): run the rule fetch and the
count fetch (the source runs them in an `asyncio.TaskGroup`; they mutate the
shared cache only under the disjoint `"rule:"`/`"count:"` keys, so the join
is embedded sequentially, the first failure propagating), then decide.
`allow` is the function returning `None`; a rejection is the raised
`RateLimitException` carrying the tripped check. -/
def assert_capacity (db : RateLimiterDb) (cache : InMemoryCache RlCacheVal)
    (args : ExtractedRequestData) (t : Instant) (now : Int) :
    Except PyError (InMemoryCache RlCacheVal) :=
  match fetch_rate_limiter_rule db cache args now with
  | .error e => .error e
  | .ok (rule, c1) =>
      match fetch_rate_limiter_count db c1 args t now with
      | .error e => .error e
      | .ok (count, c2) =>
          match assert_capacity_decide rule count with
          | .allow => .ok c2
          | .reject .ruleNotFound =>
              .error (.rateLimitExc "Rate limiter rule not found")
          | .reject .monthly => .error (.rateLimitExc "Monthly limit exceeded")
          | .reject .daily => .error (.rateLimitExc "Daily limit exceeded")
          | .reject .hourly => .error (.rateLimitExc "Hourly limit exceeded")

/-! ## JSON values (`json` module, as used by the Redis and database caches)

Python-side cache values handed to the Redis/database backends are
JSON-serializable objects; `Json` embeds them. A Python `str` is `Json.str`
(the `get` fallback that returns a raw UTF-8 string and a `json.loads` result
that is a string are the same Python value, so both are `Json.str`). Modelled
from the `json` library contract: `dumps` and `loads` cover documents built
from `null`, `true`/`false`, integer literals, strings with single-character
escapes, arrays and objects; `\uXXXX` escapes and fractional/exponent number
forms (floating point) are outside the model. -/

inductive Json where
  | null
  | bool (b : Bool)
  | int (n : Int)
  | str (s : String)
  | arr (elems : List Json)
  | obj (fields : List (String × Json))

/-- The `{` character, written via its code point. -/
def lbraceChar : Char := Char.ofNat 123

/-- The `}` character, written via its code point. -/
def rbraceChar : Char := Char.ofNat 125

/-- JSON-escape one character (`json.dumps` default escaping for the
characters the model covers). -/
def escapeJsonChar (c : Char) : String :=
  if c = '"' then "\\\""
  else if c = '\\' then "\\\\"
  else if c = '\n' then "\\n"
  else if c = '\t' then "\\t"
  else if c = '\r' then "\\r"
  else String.singleton c

/-- JSON-escape a string body. -/
def escapeJson (s : String) : String :=
  String.join (s.toList.map escapeJsonChar)

/-- Modelled `json.dumps` with the default separators. -/
def dumps : Json → String
  | .null => "null"
  | .bool true => "true"
  | .bool false => "false"
  | .int n => toString n
  | .str s => "\"" ++ escapeJson s ++ "\""
  | .arr elems =>
      "[" ++ String.intercalate ", " (elems.attach.map (fun e => dumps e.1)) ++ "]"
  | .obj fields =>
      String.singleton lbraceChar ++
        String.intercalate ", "
          (fields.attach.map
            (fun f => "\"" ++ escapeJson f.1.1 ++ "\": " ++ dumps f.1.2)) ++
        String.singleton rbraceChar
decreasing_by
  · have h := List.sizeOf_lt_of_mem e.2
    simp only [Json.arr.sizeOf_spec]
    omega
  · have h := List.sizeOf_lt_of_mem f.2
    obtain ⟨⟨k, v⟩, hf⟩ := f
    simp only [Prod.mk.sizeOf_spec] at h
    simp only [Json.obj.sizeOf_spec]
    omega

/-- Drop leading JSON whitespace. -/
def skipWs : List Char → List Char
  | [] => []
  | c :: rest =>
      if c = ' ' ∨ c = '\t' ∨ c = '\n' ∨ c = '\r' then skipWs rest else c :: rest

/-- Decode the character after a backslash in a JSON string literal. -/
def unescapeChar (c : Char) : Option Char :=
  if c = '"' then some '"'
  else if c = '\\' then some '\\'
  else if c = '/' then some '/'
  else if c = 'n' then some '\n'
  else if c = 't' then some '\t'
  else if c = 'r' then some '\r'
  else if c = 'b' then some (Char.ofNat 8)
  else if c = 'f' then some (Char.ofNat 12)
  else none

/-- Parse the body of a JSON string literal after the opening quote; the flag
records whether the previous character was an unconsumed backslash. Returns
the decoded content and the input after the closing quote. -/
def parseStringBodyAux : Bool → List Char → Option (List Char × List Char)
  | _, [] => none
  | false, c :: rest =>
      if c = '"' then some ([], rest)
      else if c = '\\' then parseStringBodyAux true rest
      else (parseStringBodyAux false rest).map (fun p => (c :: p.1, p.2))
  | true, c :: rest =>
      match unescapeChar c with
      | none => none
      | some d => (parseStringBodyAux false rest).map (fun p => (d :: p.1, p.2))

/-- Parse a JSON string literal body (after the opening quote). -/
def parseStringBody (cs : List Char) : Option (List Char × List Char) :=
  parseStringBodyAux false cs

/-- Digits to the `Nat` they denote. -/
def digitsToNat (ds : List Char) : Nat :=
  ds.foldl (fun n c => n * 10 + (c.toNat - 48)) 0

/-- Parse an integer literal (optional minus, then digits). -/
def parseIntLit : List Char → Option (Json × List Char)
  | '-' :: rest =>
      let ds := rest.takeWhile Char.isDigit
      let rest' := rest.dropWhile Char.isDigit
      if ds.isEmpty then none else some (.int (-(digitsToNat ds : Int)), rest')
  | cs =>
      let ds := cs.takeWhile Char.isDigit
      let rest' := cs.dropWhile Char.isDigit
      if ds.isEmpty then none else some (.int (digitsToNat ds), rest')

/-- Consume an expected literal token. -/
def stripToken : List Char → List Char → Option (List Char)
  | [], cs => some cs
  | _ :: _, [] => none
  | t :: ts, c :: cs => if c = t then stripToken ts cs else none

/-- Modelled `json.loads` core: fuel-indexed recursive-descent parse of one
JSON value, returning the value and the unconsumed input. A non-empty array
`[e1, e2, ...]` is parsed as `e1` followed, after a comma, by the rest parsed
as the array `[e2, ...]` (and similarly for objects), so the recursion is
fuel-indexed and structural. -/
def parseValue : Nat → List Char → Option (Json × List Char)
  | 0, _ => none
  | fuel + 1, cs =>
      match skipWs cs with
      | [] => none
      | c :: rest =>
          if c = '"' then
            (parseStringBody rest).map (fun p => (.str (String.mk p.1), p.2))
          else if c = 't' then
            (stripToken ['r', 'u', 'e'] rest).map (fun r => (.bool true, r))
          else if c = 'f' then
            (stripToken ['a', 'l', 's', 'e'] rest).map (fun r => (.bool false, r))
          else if c = 'n' then
            (stripToken ['u', 'l', 'l'] rest).map (fun r => (.null, r))
          else if c = '[' then
            match skipWs rest with
            | ']' :: rest' => some (.arr [], rest')
            | cs' =>
                match parseValue fuel cs' with
                | none => none
                | some (v, afterVal) =>
                    match skipWs afterVal with
                    | ']' :: next => some (.arr [v], next)
                    | ',' :: next =>
                        match parseValue fuel ('[' :: next) with
                        | some (.arr vs, next') => some (.arr (v :: vs), next')
                        | _ => none
                    | _ => none
          else if c = lbraceChar then
            match skipWs rest with
            | [] => none
            | d :: rest' =>
                if d = rbraceChar then some (.obj [], rest')
                else if d = '"' then
                  match parseStringBody rest' with
                  | none => none
                  | some (keyChars, afterKey) =>
                      match skipWs afterKey with
                      | ':' :: afterColon =>
                          match parseValue fuel afterColon with
                          | none => none
                          | some (v, afterVal) =>
                              match skipWs afterVal with
                              | e :: next =>
                                  if e = rbraceChar then
                                    some (.obj [(String.mk keyChars, v)], next)
                                  else if e = ',' then
                                    match parseValue fuel (lbraceChar :: next) with
                                    | some (.obj kvs, next') =>
                                        some (.obj ((String.mk keyChars, v) :: kvs),
                                          next')
                                    | _ => none
                                  else none
                              | [] => none
                      | _ => none
                else none
          else parseIntLit (c :: rest)

/-- Modelled `json.loads` on a string: parse one value and require only
whitespace to remain. -/
def loads (s : String) : Option Json :=
  match parseValue (2 * s.length + 2) s.toList with
  | none => none
  | some (j, rest) => if (skipWs rest).isEmpty then some j else none

/-! ## Database-backed cache (`http_py/cache/database_cache.py`)

The backing store is the `public.cache` table keyed by the SHA-256 digest of
the key; the digest function is opaque here (an abstract `hash` parameter),
which is all the claims need. A row carries `(plain_key, value, expires_at,
updated_at)`; `updated_at` is the `CURRENT_TIMESTAMP` touched by the upsert,
modelled by the call's `now`. -/

structure DbCacheRow where
  plain_key : String
  value : String
  expires_at : Int
  updated_at : Int
  deriving DecidableEq

/-- The `public.cache` table, keyed by hashed key. -/
structure DatabaseCacheState where
  rows : List (String × DbCacheRow)
  deriving DecidableEq

/-- `DatabaseCache.set` (`database_cache.py` lines 79–122): raise `ValueError`
on a `None` value before touching the store; otherwise serialize (`json.dumps`
unless the value is already a string) and upsert by hashed key, replacing
value and expiry and touching `updated_at`. -/
def DatabaseCache.set (hash : String → String) (st : DatabaseCacheState)
    (key : String) (value : Option Json) (expiration_in_seconds : Int) (now : Int) :
    Except PyError Unit × DatabaseCacheState :=
  match value with
  | none => (.error (.valueError "DatabaseCache: value cannot be None"), st)
  | some v =>
      let json_value := match v with
        | .str s => s
        | other => dumps other
      let row : DbCacheRow := ⟨key, json_value, now + expiration_in_seconds, now⟩
      (.ok (), ⟨dictSet st.rows (hash key) row⟩)

/-! ## Redis-backed cache (`http_py/cache/redis_cache.py`)

The remote store is a key → stored-string mapping. `setex` attaches a native
TTL enforced by the store itself; none of the claims about this backend
involve expiry, so the TTL bookkeeping of the external store is outside the
model and an entry is the stored string. -/

/-- The remote key-value store's contents. -/
abbrev RedisStore := List (String × String)

/-- `RedisCache`: holds the configured key namespace (the source's
underscore-prefix attribute, default `"cache:"`). -/
structure RedisCache where
  keyNamespace : String := "cache:"

/-- `RedisCache._make_key`: the namespaced key. -/
def RedisCache._make_key (rc : RedisCache) (key : String) : String :=
  rc.keyNamespace ++ key

/-- `RedisCache.set` (`redis_cache.py` lines 76–109): raise `ValueError` on a
`None` value before touching the store; otherwise store a string under the
namespaced key via `setex` — the value itself when it is a `str` (verbatim,
no serialization), else its `json.dumps`. (The source's `bytes` branch
decodes to the same stored string and has no separate embedding.) -/
def RedisCache.set (rc : RedisCache) (store : RedisStore) (key : String)
    (value : Option Json) (_expiration_in_seconds : Int) :
    Except PyError Unit × RedisStore :=
  match value with
  | none => (.error (.valueError "RedisCache: value cannot be None"), store)
  | some v =>
      let redis_key := rc._make_key key
      let json_value := match v with
        | .str s => s
        | other => dumps other
      (.ok (), dictSet store redis_key json_value)

/-- `RedisCache.get` (`redis_cache.py` lines 54–74): read the stored string
under the namespaced key; absent → `None`; present → `json.loads` of it, or
the raw UTF-8 string when it is not valid JSON. -/
def RedisCache.get (rc : RedisCache) (store : RedisStore) (key : String) :
    Option Json :=
  match dictGet store (rc._make_key key) with
  | none => none
  | some stored =>
      match loads stored with
      | some j => some j
      | none => some (.str stored)

/-- `key.startswith(p)`: how a `MATCH p*` pattern (a literal namespace
followed by a sole trailing `*`, which is the only shape `clear` builds)
selects keys. -/
def matchesNamespace (ns key : String) : Bool :=
  ns.toList.isPrefixOf key.toList

/-- `DEL k1 k2 ...`: drop every listed key from the store. -/
def deleteKeys (store : RedisStore) (keys : List String) : RedisStore :=
  store.filter (fun e => decide (e.1 ∉ keys))

/-- Modelled `SCAN cursor MATCH pattern`: a deterministic instance of the
cursor protocol. The cursor walks a fixed enumeration `enum` of the keys
present when the iteration started, returning up to `batch ≥ 1` keys per call
filtered by the pattern, and returns cursor `0` exactly when the enumeration
is exhausted. This models SCAN's guarantee for a keyspace whose only mutation
during the iteration is deletion of already-returned keys — which is what
`clear` does. -/
def redisScan (enum : List String) (batch : Nat) (ns : String) (cursor : Nat) :
    Nat × List String :=
  let chunk := (enum.drop cursor).take batch
  let cursor' := if enum.length ≤ cursor + batch then 0 else cursor + batch
  (cursor', chunk.filter (matchesNamespace ns))

/-- The `while True` scan-and-delete loop of `RedisCache.clear`
(`redis_cache.py` lines 139–146): scan from the cursor, delete the returned
keys if any, stop when the cursor has returned to `0`. The loop is embedded
with explicit fuel; `none` is the loop still running when the fuel runs out. -/
def clearLoop (enum : List String) (batch : Nat) (ns : String) :
    Nat → Nat → RedisStore → Option RedisStore
  | 0, _, _ => none
  | fuel + 1, cursor, store =>
      let scanned := redisScan enum batch ns cursor
      let store' := if scanned.2.isEmpty then store else deleteKeys store scanned.2
      if scanned.1 = 0 then some store'
      else clearLoop enum batch ns fuel scanned.1 store'

/-- `RedisCache.clear`: run the scan-and-delete loop over the namespaced
pattern starting from cursor `0`, with the scan enumerating the keys present
at the start. -/
def RedisCache.clear (rc : RedisCache) (store : RedisStore) (batch fuel : Nat) :
    Option RedisStore :=
  clearLoop (store.map Prod.fst) batch rc.keyNamespace fuel 0 store

/-! ## Claim theorems -/

/-- C1: the quota decision procedure: with a rule present, an absent count
record allows the request; otherwise the ceilings are evaluated in the fixed
priority order monthly, then daily, then hourly, rejecting at the first
ceiling with `count >= limit` — so when the monthly and hourly counts both
meet-or-exceed their limits the reported reason is the monthly one, never the
hourly one. -/
theorem assert_capacity_priority_order :
    (∀ rule : RateLimiterRule, assert_capacity_decide (some rule) none = .allow) ∧
    (∀ (rule : RateLimiterRule) (count : RateLimiterRequestCount),
      rule.monthly_limit ≤ count.monthly_count →
        assert_capacity_decide (some rule) (some count) = .reject .monthly) ∧
    (∀ (rule : RateLimiterRule) (count : RateLimiterRequestCount),
      count.monthly_count < rule.monthly_limit →
        rule.daily_limit ≤ count.daily_count →
        assert_capacity_decide (some rule) (some count) = .reject .daily) ∧
    (∀ (rule : RateLimiterRule) (count : RateLimiterRequestCount),
      count.monthly_count < rule.monthly_limit →
        count.daily_count < rule.daily_limit →
        rule.hourly_limit ≤ count.hourly_count →
        assert_capacity_decide (some rule) (some count) = .reject .hourly) ∧
    (∀ (rule : RateLimiterRule) (count : RateLimiterRequestCount),
      count.monthly_count < rule.monthly_limit →
        count.daily_count < rule.daily_limit →
        count.hourly_count < rule.hourly_limit →
        assert_capacity_decide (some rule) (some count) = .allow) ∧
    (∀ (rule : RateLimiterRule) (count : RateLimiterRequestCount),
      rule.monthly_limit ≤ count.monthly_count →
        rule.hourly_limit ≤ count.hourly_count →
        assert_capacity_decide (some rule) (some count) = .reject .monthly ∧
        assert_capacity_decide (some rule) (some count) ≠ .reject .hourly) := by
  refine ⟨fun _ => rfl, ?_, ?_, ?_, ?_, ?_⟩
  · intro rule count h
    simp [assert_capacity_decide, h]
  · intro rule count h1 h2
    simp [assert_capacity_decide, not_le.mpr h1, h2]
  · intro rule count h1 h2 h3
    simp [assert_capacity_decide, not_le.mpr h1, not_le.mpr h2, h3]
  · intro rule count h1 h2 h3
    simp [assert_capacity_decide, not_le.mpr h1, not_le.mpr h2, not_le.mpr h3]
  · intro rule count h1 h2
    refine ⟨by simp [assert_capacity_decide, h1], ?_⟩
    simp [assert_capacity_decide, h1]

theorem assert_capacity_priority_order_witness :
    assert_capacity_decide (some ⟨"/x", 10, 1, 1⟩) (some ⟨"/x", 0, 5, 5⟩) =
      .reject .monthly :=
  (assert_capacity_priority_order.2.2.2.2.2 ⟨"/x", 10, 1, 1⟩ ⟨"/x", 0, 5, 5⟩
    (by decide) (by decide)).1

/-- C2: when the rule lookup returns absent, the decision procedure of
`assert_capacity` rejects with the distinct "rule not found" reason — for
every count record, present or absent — rather than allowing. -/
theorem assert_capacity_no_rule_rejects :
    ∀ count : Option RateLimiterRequestCount,
      assert_capacity_decide none count = .reject .ruleNotFound :=
  fun _ => rfl

/-- C5: the in-process cache TTL contract: after `set(k, v, ttl)` at time
`t0`, while `now < t0 + ttl` the value is returned by `get` and `exists`
reports true; once `t0 + ttl ≤ now`, `get` returns `None`, `exists` returns
false, and either call removes the expired entry from the map. -/
theorem in_memory_cache_ttl_contract {V : Type} (c : InMemoryCache V) (key : String)
    (v : V) (ttl t0 now : Int) :
    (now < t0 + ttl →
      (((c.set key (some v) ttl t0).2).get key now).1 = some v ∧
      (((c.set key (some v) ttl t0).2).exists key now).1 = true) ∧
    (t0 + ttl ≤ now →
      (((c.set key (some v) ttl t0).2).get key now).1 = none ∧
      dictGet ((((c.set key (some v) ttl t0).2).get key now).2).cache key = none ∧
      (((c.set key (some v) ttl t0).2).exists key now).1 = false ∧
      dictGet ((((c.set key (some v) ttl t0).2).exists key now).2).cache key = none) := by
  have hget : dictGet ((c.set key (some v) ttl t0).2).cache key =
      some ⟨some v, some (t0 + ttl)⟩ := by
    show dictGet (dictSet _ key _) key = _
    exact dictGet_dictSet_self _ _ _
  constructor
  · intro hvalid
    have hv : is_cache_item_valid now (⟨some v, some (t0 + ttl)⟩ : CacheItem V) = true := by
      simp [is_cache_item_valid, hvalid]
    constructor
    · simp [InMemoryCache.get, hget, hv]
    · simp [InMemoryCache.exists, hget, hv]
  · intro hexp
    have hv : is_cache_item_valid now (⟨some v, some (t0 + ttl)⟩ : CacheItem V) = false := by
      simp [is_cache_item_valid]
      omega
    refine ⟨?_, ?_, ?_, ?_⟩
    · simp [InMemoryCache.get, hget, hv]
    · simp [InMemoryCache.get, hget, hv, dictGet_dictPop_self]
    · simp [InMemoryCache.exists, hget, hv]
    · simp [InMemoryCache.exists, hget, hv, dictGet_dictPop_self]

theorem in_memory_cache_ttl_contract_witness :
    ((((⟨1000, []⟩ : InMemoryCache Nat).set "k" (some 7) 10 100).2.get "k" 105).1
        = some 7) ∧
    ((((⟨1000, []⟩ : InMemoryCache Nat).set "k" (some 7) 10 100).2.get "k" 110).1
        = none) :=
  ⟨((in_memory_cache_ttl_contract ⟨1000, []⟩ "k" 7 10 100 105).1 (by decide)).1,
   ((in_memory_cache_ttl_contract ⟨1000, []⟩ "k" 7 10 100 110).2 (by decide)).1⟩

/-- C6: storing the absent sentinel (`None`) fails with the backend's
`InvalidValue` (`ValueError`) on every backend — in-memory, database, redis —
and the cache state is unchanged by the failed call. -/
theorem cache_set_none_invalid_all_backends :
    (∀ (V : Type) (c : InMemoryCache V) (key : String) (ttl now : Int),
      c.set key none ttl now =
        (.error (.valueError "InMemoryCache: value cannot be None"), c)) ∧
    (∀ (hash : String → String) (st : DatabaseCacheState) (key : String)
        (ttl now : Int),
      DatabaseCache.set hash st key none ttl now =
        (.error (.valueError "DatabaseCache: value cannot be None"), st)) ∧
    (∀ (rc : RedisCache) (store : RedisStore) (key : String) (ttl : Int),
      rc.set store key none ttl =
        (.error (.valueError "RedisCache: value cannot be None"), store)) :=
  ⟨fun _ _ _ _ _ => rfl, fun _ _ _ _ _ => rfl, fun _ _ _ _ => rfl⟩

/-- C7: the capacity sweep: when `set` is called with a new key while the map
holds at least `max_size` entries, every expired entry is removed, every
still-valid entry keeps its value and expiry, and the new entry is inserted
afterwards regardless of the post-sweep size. -/
theorem in_memory_cache_capacity_sweep {V : Type} (c : InMemoryCache V) (key : String)
    (v : V) (ttl now : Int)
    (hnd : (c.cache.map Prod.fst).Nodup)
    (hnew : dictGet c.cache key = none)
    (hcap : c.max_size ≤ c.cache.length) :
    dictGet ((c.set key (some v) ttl now).2).cache key =
        some ⟨some v, some (now + ttl)⟩ ∧
    ∀ k', k' ≠ key →
      dictGet ((c.set key (some v) ttl now).2).cache k' =
        match dictGet c.cache k' with
        | some item => if is_cache_item_valid now item then some item else none
        | none => none := by
  have hcond : ¬ dictContains c.cache key ∧ c.max_size ≤ c.cache.length := by
    refine ⟨?_, hcap⟩
    simp [dictContains, hnew]
  have hcache : ((c.set key (some v) ttl now).2).cache =
      dictSet (c.cache.filter (fun kv => is_cache_item_valid now kv.2)) key
        ⟨some v, some (now + ttl)⟩ := by
    show dictSet (if ¬ dictContains c.cache key ∧ c.max_size ≤ c.cache.length then
        InMemoryCache._clean now c else c).cache key ⟨some v, some (now + ttl)⟩ = _
    rw [if_pos hcond]
    rfl
  constructor
  · rw [hcache]
    exact dictGet_dictSet_self _ _ _
  · intro k' hk'
    rw [hcache, dictGet_dictSet_ne _ _ _ _ hk',
      dictGet_filter (fun kv => is_cache_item_valid now kv.2) _ _ hnd]
    cases dictGet c.cache k' <;> simp

theorem in_memory_cache_capacity_sweep_witness :
    (dictGet (((⟨1, [("a", ⟨some 1, some 5⟩)]⟩ : InMemoryCache Nat).set
        "b" (some 2) 10 10).2).cache "b" = some ⟨some 2, some 20⟩) ∧
    (dictGet (((⟨1, [("a", ⟨some 1, some 5⟩)]⟩ : InMemoryCache Nat).set
        "b" (some 2) 10 10).2).cache "a" = none) :=
  ⟨(in_memory_cache_capacity_sweep ⟨1, [("a", ⟨some 1, some 5⟩)]⟩ "b" 2 10 10
      (by decide) (by decide) (by decide)).1,
   by
    have h := (in_memory_cache_capacity_sweep
      (⟨1, [("a", ⟨some 1, some 5⟩)]⟩ : InMemoryCache Nat) "b" 2 10 10
      (by decide) (by decide) (by decide)).2 "a" (by decide)
    simpa using h⟩

/-- C9: window-key monotonicity: for instants `t1 < t2` on the same calendar
day, `hourKey t1 ≤ hourKey t2`, with equality iff they fall in the same clock
hour. -/
theorem hour_key_monotone_same_day (t1 t2 : Instant)
    (hday : t1.sameDay t2 = true) (hlt : t1.ltB t2 = true) :
    t1.hourKey ≤ t2.hourKey ∧ (t1.hourKey = t2.hourKey ↔ t1.hour = t2.hour) := by
  obtain ⟨y1, m1, d1, h1, mi1, s1⟩ := t1
  obtain ⟨y2, m2, d2, h2, mi2, s2⟩ := t2
  simp only [Instant.sameDay, Bool.and_eq_true, decide_eq_true_eq] at hday
  obtain ⟨⟨hy, hm⟩, hd⟩ := hday
  subst hy; subst hm; subst hd
  have hlt' : h1 < h2 ∨ (h1 = h2 ∧ (mi1 < mi2 ∨ (mi1 = mi2 ∧ s1 < s2))) := by
    simpa [Instant.ltB] using hlt
  simp only [Instant.hourKey, hour_key]
  rcases hlt' with h | ⟨heq, _⟩ <;> omega

theorem hour_key_monotone_same_day_witness :
    Instant.hourKey ⟨2024, 5, 10, 9, 30, 0⟩ ≤ Instant.hourKey ⟨2024, 5, 10, 11, 0, 0⟩ :=
  (hour_key_monotone_same_day ⟨2024, 5, 10, 9, 30, 0⟩ ⟨2024, 5, 10, 11, 0, 0⟩
    (by decide) (by decide)).1

/-- C3 (code bug): with a rule row present for `("/x", "p")` and an empty
cache, `fetch_rate_limiter_rule` does not return and cache the rule: the
`RateLimiterRule(...)` call of `utils.py` lines 96–102 passes
`product_name=`, which the `NamedTuple` of `types.py` lines 6–10 does not
declare, so the call raises `TypeError` instead. -/
theorem fetch_rate_limiter_rule_ctor_type_error :
    fetch_rate_limiter_rule
      ⟨fun p pr => if p = "/x" ∧ pr = "p" then some ("/x", "p", 10, 100, 2) else none,
        fun _ _ _ => 0, fun _ _ _ => 0, fun _ _ _ => 0⟩
      ⟨1000, []⟩ ⟨some "/x", some "p"⟩ 0 =
      .error (.typeError
        "RateLimiterRule() got an unexpected keyword argument: product_name") := rfl

/-- C4 (code bug): with the rule `{hourly: 2, daily: 10, monthly: 100}`
configured for `("/x", "p")`, zero prior recorded usage and an empty cache,
the first request is not allowed: `assert_capacity` fails with the
`TypeError` raised when `fetch_rate_limiter_rule` (and likewise
`fetch_rate_limiter_count`) constructs its `NamedTuple` with the undeclared
`product_name` keyword, so the allow/allow/reject-hourly sequence never
happens. -/
theorem assert_capacity_first_request_type_error :
    assert_capacity
      ⟨fun p pr => if p = "/x" ∧ pr = "p" then some ("/x", "p", 10, 100, 2) else none,
        fun _ _ _ => 0, fun _ _ _ => 0, fun _ _ _ => 0⟩
      ⟨1000, []⟩ ⟨some "/x", some "p"⟩ ⟨2024, 5, 10, 12, 0, 0⟩ 0 =
      .error (.typeError
        "RateLimiterRule() got an unexpected keyword argument: product_name") := rfl

theorem deleteKeys_nil (store : RedisStore) : deleteKeys store [] = store := by
  simp [deleteKeys]

theorem deleteKeys_deleteKeys (store : RedisStore) (a b : List String) :
    deleteKeys (deleteKeys store a) b = deleteKeys store (a ++ b) := by
  unfold deleteKeys
  rw [List.filter_filter]
  apply List.filter_congr
  intro e _
  by_cases ha : e.1 ∈ a <;> by_cases hb : e.1 ∈ b <;>
    simp [ha, hb, List.mem_append]

theorem clearLoop_eq (enum : List String) (batch : Nat) (ns : String)
    (hb : 1 ≤ batch) :
    ∀ (fuel cursor : Nat) (store : RedisStore),
      (enum.drop cursor).length < fuel →
      clearLoop enum batch ns fuel cursor store =
        some (deleteKeys store ((enum.drop cursor).filter (matchesNamespace ns))) := by
  intro fuel
  induction fuel with
  | zero => intro cursor store h; omega
  | succ f ih =>
      intro cursor store h
      have hstore' :
          (if ((enum.drop cursor).take batch).filter (matchesNamespace ns)
                |>.isEmpty then store
            else deleteKeys store
              (((enum.drop cursor).take batch).filter (matchesNamespace ns))) =
          deleteKeys store
            (((enum.drop cursor).take batch).filter (matchesNamespace ns)) := by
        split
        · next hemp =>
            rw [List.isEmpty_iff.mp hemp, deleteKeys_nil]
        · rfl
      by_cases hc : enum.length ≤ cursor + batch
      · have htake : (enum.drop cursor).take batch = enum.drop cursor := by
          apply List.take_of_length_le
          simp [List.length_drop]
          omega
        simp only [clearLoop, redisScan, if_pos hc]
        rw [htake] at hstore' ⊢
        simpa using hstore'
      · have hcur : ¬(cursor + batch = 0) := by omega
        simp only [clearLoop, redisScan, if_neg hc]
        rw [if_neg hcur]
        rw [hstore']
        have hdrop : enum.drop (cursor + batch) = (enum.drop cursor).drop batch := by
          rw [List.drop_drop]
        have hlen : (enum.drop (cursor + batch)).length < f := by
          rw [hdrop]
          have h1 : (enum.drop cursor).length < f + 1 := h
          simp only [List.length_drop] at h1 ⊢
          omega
        rw [ih (cursor + batch) _ hlen]
        rw [deleteKeys_deleteKeys, hdrop, ← List.filter_append,
          List.take_append_drop]

/-- C8: `RedisCache.clear` deletes every key under this instance's namespace
and no key outside it, for every store state: the scan-and-delete loop,
whose cursor walks the keys present at the start in batches of `batch ≥ 1`
and stops exactly when it returns to its start value 0, terminates within
`store.length + 1` iterations with exactly the non-namespaced entries left. -/
theorem redis_clear_namespace_only (rc : RedisCache) (store : RedisStore)
    (batch fuel : Nat) (hb : 1 ≤ batch) (hf : store.length < fuel) :
    rc.clear store batch fuel =
      some (store.filter (fun e => !(matchesNamespace rc.keyNamespace e.1))) := by
  unfold RedisCache.clear
  rw [clearLoop_eq (store.map Prod.fst) batch rc.keyNamespace hb fuel 0 store
    (by simpa using hf)]
  congr 1
  unfold deleteKeys
  apply List.filter_congr
  intro e he
  by_cases hm : matchesNamespace rc.keyNamespace e.1 = true
  · have hmem : e.1 ∈ ((store.map Prod.fst).drop 0).filter
        (matchesNamespace rc.keyNamespace) := by
      simp only [List.drop_zero, List.mem_filter, List.mem_map]
      exact ⟨⟨e, he, rfl⟩, hm⟩
    simp only [hm, Bool.not_true]
    simp only [List.drop_zero, List.mem_filter, List.mem_map] at hmem
    simp only [decide_eq_false_iff_not, not_not]
    refine List.mem_filter.mpr ?_
    simp only [List.drop_zero, List.mem_map]
    exact ⟨⟨e, he, rfl⟩, hm⟩
  · have hmem : e.1 ∉ ((store.map Prod.fst).drop 0).filter
        (matchesNamespace rc.keyNamespace) := by
      simp only [List.drop_zero, List.mem_filter, List.mem_map]
      intro hcontra
      exact hm hcontra.2
    simp [hm, hmem]

theorem redis_clear_namespace_only_witness :
    RedisCache.clear ⟨"cache:"⟩ [("cache:a", "1"), ("other:b", "2")] 1 3 =
      some [("other:b", "2")] := by
  have h := redis_clear_namespace_only ⟨"cache:"⟩ [("cache:a", "1"), ("other:b", "2")]
    1 3 (by decide) (by decide)
  rw [h]
  rfl

theorem skipWs_length (cs : List Char) : (skipWs cs).length ≤ cs.length := by
  induction cs with
  | nil => simp [skipWs]
  | cons c rest ih =>
      by_cases h : c = ' ' ∨ c = '\t' ∨ c = '\n' ∨ c = '\r'
      · simp only [skipWs, if_pos h]
        exact ih.trans (by simp)
      · simp [skipWs, if_neg h]

theorem parseStringBodyAux_length :
    ∀ (cs : List Char) (flag : Bool) (content rest : List Char),
      parseStringBodyAux flag cs = some (content, rest) →
      content.length + rest.length + 1 ≤ cs.length + (if flag then 1 else 0) := by
  intro cs
  induction cs with
  | nil =>
      intro flag content rest h
      cases flag <;> simp [parseStringBodyAux] at h
  | cons c cs' ih =>
      intro flag content rest h
      cases flag with
      | false =>
          simp only [parseStringBodyAux] at h
          by_cases hq : c = '"'
          · rw [if_pos hq] at h
            simp only [Option.some.injEq, Prod.mk.injEq] at h
            obtain ⟨h1, h2⟩ := h
            subst h1; subst h2
            simp
          · rw [if_neg hq] at h
            by_cases hbs : c = '\\'
            · rw [if_pos hbs] at h
              have hrec := ih true content rest h
              simp only [if_pos] at hrec ⊢
              simp at hrec ⊢
              omega
            · rw [if_neg hbs] at h
              cases haux : parseStringBodyAux false cs' with
              | none => rw [haux] at h; simp at h
              | some p =>
                  obtain ⟨p1, p2⟩ := p
                  rw [haux] at h
                  simp only [Option.map_some', Option.some.injEq,
                    Prod.mk.injEq] at h
                  obtain ⟨h1, h2⟩ := h
                  subst h1; subst h2
                  have hrec := ih false p1 p2 haux
                  simp at hrec ⊢
                  omega
      | true =>
          simp only [parseStringBodyAux] at h
          cases hu : unescapeChar c with
          | none => rw [hu] at h; simp at h
          | some d =>
              rw [hu] at h
              cases haux : parseStringBodyAux false cs' with
              | none => rw [haux] at h; simp at h
              | some p =>
                  obtain ⟨p1, p2⟩ := p
                  rw [haux] at h
                  simp only [Option.map_some', Option.some.injEq,
                    Prod.mk.injEq] at h
                  obtain ⟨h1, h2⟩ := h
                  subst h1; subst h2
                  have hrec := ih false p1 p2 haux
                  simp at hrec ⊢
                  omega

theorem parseValue_str_length :
    ∀ (fuel : Nat) (cs : List Char) (s : String) (rest : List Char),
      parseValue fuel cs = some (.str s, rest) → s.length + 2 ≤ cs.length := by
  intro fuel cs s rest h
  match fuel with
  | 0 => simp [parseValue] at h
  | fuel + 1 =>
      rw [parseValue] at h
      split at h
      · simp at h
      · rename_i c rest1 heq
        have hlen1 : rest1.length + 1 ≤ cs.length := by
          have hle := skipWs_length cs
          rw [heq] at hle
          simpa using hle
        by_cases hq : c = '"'
        · rw [if_pos hq] at h
          simp only [Option.map_eq_some'] at h
          obtain ⟨⟨chars, rest2⟩, hb, heq2⟩ := h
          simp only [Prod.mk.injEq, Json.str.injEq] at heq2
          obtain ⟨hs, hr⟩ := heq2
          have hlen2 := parseStringBodyAux_length rest1 false chars rest2 hb
          simp at hlen2
          have hschars : s.length = chars.length := by
            rw [← hs]
            rfl
          omega
        · rw [if_neg hq] at h
          by_cases ht : c = 't'
          · rw [if_pos ht] at h
            simp at h
          · rw [if_neg ht] at h
            by_cases hfa : c = 'f'
            · rw [if_pos hfa] at h
              simp at h
            · rw [if_neg hfa] at h
              by_cases hn : c = 'n'
              · rw [if_pos hn] at h
                simp at h
              · rw [if_neg hn] at h
                by_cases harr : c = '['
                · rw [if_pos harr] at h
                  repeat' split at h
                  all_goals simp_all
                · rw [if_neg harr] at h
                  by_cases hobj : c = lbraceChar
                  · rw [if_pos hobj] at h
                    repeat' split at h
                    all_goals simp_all
                  · rw [if_neg hobj] at h
                    unfold parseIntLit at h
                    repeat' split at h
                    all_goals simp_all

theorem loads_str_shorter (v s : String) (h : loads v = some (.str s)) :
    s.length + 2 ≤ v.length := by
  unfold loads at h
  split at h
  · simp at h
  · rename_i j rest hp
    split at h
    · simp only [Option.some.injEq] at h
      subst h
      have hb := parseValue_str_length _ _ _ _ hp
      have hv : v.toList.length = v.length := rfl
      omega
    · simp at h

/-- C10: the Redis set/get round-trip is not the identity on strings: for
every string `v`, `set` stores `v` verbatim under the namespaced key, and a
subsequent `get` returns `json.loads(v)` whenever `v` parses as JSON and the
original string `v` exactly when it does not (so e.g. `"5"` comes back as
the integer `5`). -/
theorem redis_set_get_json_roundtrip :
    (∀ (rc : RedisCache) (store : RedisStore) (key v : String),
      dictGet ((rc.set store key (some (.str v)) 300).2) (rc._make_key key) =
          some v ∧
      rc.get ((rc.set store key (some (.str v)) 300).2) key =
        some ((loads v).getD (.str v))) ∧
    (∀ (rc : RedisCache) (store : RedisStore) (key v : String),
      rc.get ((rc.set store key (some (.str v)) 300).2) key = some (.str v) →
        loads v = none) ∧
    (RedisCache.get ⟨"cache:"⟩
        ((RedisCache.set ⟨"cache:"⟩ [] "k" (some (.str "5")) 300).2) "k" =
      some (.int 5)) ∧
    Json.int 5 ≠ Json.str "5" := by
  have hpair : ∀ (rc : RedisCache) (store : RedisStore) (key v : String),
      dictGet ((rc.set store key (some (.str v)) 300).2) (rc._make_key key) =
          some v ∧
      rc.get ((rc.set store key (some (.str v)) 300).2) key =
        some ((loads v).getD (.str v)) := by
    intro rc store key v
    have hstore : dictGet ((rc.set store key (some (.str v)) 300).2)
        (rc._make_key key) = some v := by
      show dictGet (dictSet store (rc._make_key key) v) (rc._make_key key) = some v
      exact dictGet_dictSet_self _ _ _
    refine ⟨hstore, ?_⟩
    unfold RedisCache.get
    rw [hstore]
    cases hl : loads v <;> simp [hl]
  refine ⟨hpair, ?_, rfl, by simp⟩
  intro rc store key v h
  rw [(hpair rc store key v).2] at h
  cases hl : loads v with
  | none => rfl
  | some j =>
      rw [hl] at h
      simp only [Option.getD_some, Option.some.injEq] at h
      subst h
      have := loads_str_shorter v v hl
      omega

theorem redis_set_get_json_roundtrip_witness : loads "hello" = none :=
  redis_set_get_json_roundtrip.2.1 ⟨"cache:"⟩ [] "k" "hello" rfl
